import Mathlib

/-!
# go-vcs: SSH remote callbacks of `vcs/git/clone_update.go`

A shallow embedding of `makeRemoteCallbacks`, of the two callbacks it builds
(`CredentialsCallback`, `CertificateCheckCallback`), of `cleanupFuncs.run` and of
`md5String`, together with the properties of these functions.

Conventions of the embedding:

* a Go function with side effects becomes a function `World → result × World`;
* a closure becomes a top-level function whose first arguments are the captured variables;
* `nil`-able values (`[]byte`, `error`, `*T`) become `Option`;
* the pointer `opt.SSH` is an address into the part `configs` of the state, so that a
  write through it is seen by the caller and a read through it sees the value at the
  time of the read;
* what lives outside the package (libgit2 constants and constructors, `crypto/md5`,
  `go.crypto/ssh`, the operating system) is a field of `Env`.
-/

namespace GoVcs

/-! ## Bytes and hashes -/

/-- A Go `byte`. -/
abbrev Byte := Fin 256

/-- A Go `[16]byte`, the type of an MD5 sum. -/
abbrev Hash16 := { l : List Byte // l.length = 16 }

/-- A Go `error` value (only its being `nil` or not matters here). -/
abbrev Error := String

/-! ## `md5String` -/

/-- The digit table `ldigits` of Go's `fmt` package. -/
def ldigits : List Char :=
  ['0', '1', '2', '3', '4', '5', '6', '7', '8', '9', 'a', 'b', 'c', 'd', 'e', 'f']

/-- The expression `digits[i]` for the table `ldigits`. -/
def ldigit (i : Nat) : Char := ldigits.getD i '?'

/-- The loop of `fmt.Sprintf("% x", b)` for a byte array `b`, started at index `i`:
a space before every byte but the first, then the two hexadecimal digits
`digits[c>>4]`, `digits[c&0xF]` of the byte. -/
def fmtSbxFrom : Nat → List Byte → List Char
  | _, [] => []
  | i, c :: rest =>
    (if i > 0 then [' '] else []) ++ [ldigit (c.val >>> 4), ldigit (c.val &&& 0xF)]
      ++ fmtSbxFrom (i + 1) rest

/-- The call `fmt.Sprintf("% x", md5Sum)`. -/
def sprintfSpaceX (md5Sum : Hash16) : String := String.mk (fmtSbxFrom 0 md5Sum.val)

/-- The call `strings.Replace(s, old, new, -1)` for one-character strings `old` and `new`:
every occurrence of `old` is replaced. -/
def stringsReplace (s : String) (old new : Char) : String :=
  String.mk (s.data.map fun c => if c = old then new else c)

/-- The function `md5String`: the MD5 sum in hex, bytes separated by colons. -/
def md5String (md5Sum : Hash16) : String :=
  let md5Str := sprintfSpaceX md5Sum
  let md5Str := stringsReplace md5Str ' ' ':'
  md5Str

/-! ## Data model -/

/-- The interface `ssh.PublicKey`, as the record of what its methods return. -/
structure PublicKey where
  /-- The result of `Type()`: the name of the key algorithm. -/
  KeyType : String
  /-- The result of `Marshal()`: the key in SSH wire format. -/
  Marshal : List Byte
deriving DecidableEq, Repr

/-- The interface `ssh.Signer`, as the record of what its methods return. -/
structure Signer where
  /-- The result of `PublicKey()`. -/
  PublicKey : PublicKey
deriving DecidableEq, Repr

/-- The struct `git2go.HostkeyCertificate`. -/
structure HostkeyCertificate where
  /-- The bit set `Kind` of type `HostkeyKind` (an unsigned integer). -/
  Kind : Nat
  HashMD5 : Hash16
deriving DecidableEq

/-- The struct `git2go.Certificate`, restricted to the field the package reads. -/
structure Certificate where
  Hostkey : HostkeyCertificate
deriving DecidableEq

/-- The credential a `git2go` constructor was asked to build. -/
inductive Cred where
  /-- The credential of `git2go.NewCredSshKey(username, publickey, privatekey, passphrase)`. -/
  | sshKey (username publickey privatekey passphrase : String)
  /-- The credential of `git2go.NewCredDefault()`. -/
  | default
deriving DecidableEq, Repr

/-- Modelled from the spec: the struct `vcs.SSHConfig` (declared in package `vcs`):
`SSHOptions{User: string, PrivateKey: bytes|absent, PublicKey: bytes|absent}`. -/
structure SSHConfig where
  User : String
  PrivateKey : Option (List Byte)
  PublicKey : Option (List Byte)
deriving DecidableEq, Repr

/-- The address of an `SSHConfig` in the state. -/
abbrev Ptr := Nat

/-- Modelled from the spec: the struct `vcs.RemoteOpts` (declared in package `vcs`):
the caller-supplied configuration, with its optional SSH part. The code compares `opt.SSH`
with `nil`, so the field is a pointer: `none` is `nil`. -/
structure RemoteOpts where
  SSH : Option Ptr
deriving DecidableEq, Repr

/-- Modelled from the spec: the type `sshutil.KnownHosts` (declared in package `vcs/ssh`)
with its method `Lookup(hostname) -> (keys, found)`. -/
structure KnownHosts where
  Lookup : String → List PublicKey × Bool

/-- The two package-level variables read by the certificate check. -/
structure Globals where
  InsecureSkipCheckVerifySSH : Bool
  standardKnownHosts : KnownHosts

/-- A line written with `log.Printf`. -/
inductive LogEntry where
  /-- The line "No authentication available for git URL %q." -/
  | noAuthentication (url : String)
  /-- The line "Invalid certificate for SSH host %s: %v." -/
  | invalidCertificate (hostname : String) (cert : Certificate)
deriving DecidableEq

/-- An `*os.File`: the handle of an open file, known by its name. -/
structure File where
  Name : String
deriving DecidableEq, Repr

/-- The state the package acts on: the files of the transient storage with their
contents, the names of the open file handles, the log, and the `SSHConfig` values that
pointers point to. -/
structure World where
  files : List (String × List Byte)
  opened : List String
  log : List LogEntry
  configs : Ptr → SSHConfig

/-- The names of the files that exist. -/
def World.names (w : World) : List String := w.files.map Prod.fst

/-- What the collaborators outside the package do. -/
structure Env where
  /-- The constant `git2go.HostkeyMD5`. -/
  HostkeyMD5 : Nat
  /-- The constant `git2go.CredTypeSshKey`. -/
  CredTypeSshKey : Nat
  /-- The integer a `git2go` credential constructor returns next to the credential. -/
  credRv : Cred → Int
  /-- The function `md5.Sum`. -/
  md5Sum : List Byte → Hash16
  /-- The function `ssh.ParsePrivateKey`. -/
  ParsePrivateKey : List Byte → Except Error Signer
  /-- The function `ssh.MarshalAuthorizedKey`. -/
  MarshalAuthorizedKey : PublicKey → List Byte
  /-- The user name of `user.Current()`, or its error. -/
  userCurrent : Except Error String
  /-- The name a new temporary file gets, given the existing names and the prefix. -/
  tempName : List String → String → String
  /-- A temporary file never reuses an existing name. -/
  tempName_fresh : ∀ names pre, tempName names pre ∉ names
  /-- Whether creating or writing the temporary file fails. -/
  stageFails : List String → String → List Byte → Bool
  /-- Whether closing the handle of the named file fails. -/
  closeFails : String → Bool
  /-- Whether removing the named file fails. -/
  removeFails : String → Bool

/-! ## The operating system and the key material stager -/

/-- A Go `func() error` acting on a state `σ`. -/
abbrev Action (σ : Type) := σ → Option Error × σ

/-- The method `(*os.File).Close`: closing a handle that is not open is an error; otherwise
the handle is released, and the operating system may still report an error. -/
def File.Close (E : Env) (f : File) : Action World := fun w =>
  if f.Name ∈ w.opened then
    (if E.closeFails f.Name then some "close failed" else none,
      { w with opened := w.opened.erase f.Name })
  else (some "file already closed", w)

/-- The function `os.Remove`: removing a file that does not exist is an error; otherwise
the file is removed unless the operating system reports an error. -/
def osRemove (E : Env) (name : String) : Action World := fun w =>
  if name ∈ w.names then
    if E.removeFails name then (some "remove failed", w)
    else (none, { w with files := w.files.filter fun p => p.1 ≠ name })
  else (some "no such file", w)

/-- Modelled from the spec: the function `util.WriteKeyTempFile` of package `vcs/util`
(the Key Material Stager, §4.2). It creates a new, uniquely named transient file, writes
`keyData` verbatim and returns the file name and the open file; on a create or write
failure no file is left and an error is returned. -/
def WriteKeyTempFile (E : Env) (pre : String) (keyData : List Byte) (w : World) :
    Except Error (String × File) × World :=
  if E.stageFails w.names pre keyData then (.error "cannot write key file", w)
  else
    let filename := E.tempName w.names pre
    (.ok (filename, ⟨filename⟩),
      { w with files := w.files ++ [(filename, keyData)], opened := w.opened ++ [filename] })

/-! ## `cleanupFuncs` -/

/-- The type `cleanupFuncs`, a slice of `func() error`. -/
abbrev cleanupFuncs (σ : Type) := List (Action σ)

/-- The method `cleanupFuncs.run`. -/
def cleanupFuncs.run {σ : Type} : cleanupFuncs σ → Action σ
  | [], s => (none, s)
  | cf :: rest, s =>
    match cf s with
    | (some err, s1) => (some err, s1)
    | (none, s1) => cleanupFuncs.run rest s1

/-! ## The callbacks -/

/-- The closure `CredentialsCallback` built by `makeRemoteCallbacks`; it captures the
pointer `opt.SSH` and the two file names. The argument `optSSH` is the value `*opt.SSH`
in the state of the call. -/
def CredentialsCallback (E : Env) (optSSH : SSHConfig) (pubkeyFilename privkeyFilename : String)
    (url usernameFromURL : String) (allowedTypes : Nat) (w : World) : (Int × Cred) × World :=
  let username : String := ""
  let username : String :=
    if usernameFromURL ≠ "" then usernameFromURL
    else if optSSH.User ≠ "" then optSSH.User
    else
      if username = "" then
        match E.userCurrent with
        | .ok u => u
        | .error _ => username
      else username
  if allowedTypes &&& E.CredTypeSshKey ≠ 0 ∧ optSSH.PrivateKey ≠ none then
    let cred := Cred.sshKey username pubkeyFilename privkeyFilename ""
    ((E.credRv cred, cred), w)
  else
    let w1 := { w with log := w.log ++ [LogEntry.noAuthentication url] }
    let cred := Cred.default
    ((E.credRv cred, cred), w1)

/-- The loop `for _, key := range keys` of `CertificateCheckCallback`: `true` when the loop
returns `0`, at the first key whose fingerprint string equals `hostFingerprint`, and
`false` when the loop ends without returning. -/
def knownFingerprintLoop (E : Env) (hostFingerprint : String) : List PublicKey → Bool
  | [] => false
  | key :: rest =>
    let knownFingerprint := md5String (E.md5Sum key.Marshal)
    if hostFingerprint = knownFingerprint then true
    else knownFingerprintLoop E hostFingerprint rest

/-- The closure `CertificateCheckCallback` built by `makeRemoteCallbacks`; it reads the two
package-level variables. -/
def CertificateCheckCallback (E : Env) (G : Globals) (cert : Option Certificate) (valid : Bool)
    (hostname : String) (w : World) : Int × World :=
  -- the code never reads `valid`
  let _ := valid
  if G.InsecureSkipCheckVerifySSH then (0, w)
  else
    match cert with
    | none => (-1, w)
    | some cert =>
      let reject : Int × World :=
        (-1, { w with log := w.log ++ [LogEntry.invalidCertificate hostname cert] })
      if cert.Hostkey.Kind &&& E.HostkeyMD5 > 0 then
        let (keys, found) := G.standardKnownHosts.Lookup hostname
        if found then
          let hostFingerprint := md5String cert.Hostkey.HashMD5
          if knownFingerprintLoop E hostFingerprint keys then (0, w)
          else reject
        else reject
      else reject

/-- The struct `git2go.RemoteCallbacks`, restricted to the two callbacks the package sets. -/
structure RemoteCallbacks where
  CredentialsCallback : String → String → Nat → World → (Int × Cred) × World
  CertificateCheckCallback : Globals → Option Certificate → Bool → String → World → Int × World

/-! ## `makeRemoteCallbacks` -/

/-- The body of `makeRemoteCallbacks`, up to its `return` statements: the three results
as the `return` sets them, before the deferred function runs. Reads and writes of
`opt.SSH.…` go through the pointer; the credentials callback reads `*opt.SSH` when it is
called. -/
def makeRemoteCallbacksBody (E : Env) (url : String) (opt : RemoteOpts) (w : World) :
    (Option RemoteCallbacks × cleanupFuncs World × Option Error) × World :=
  match opt.SSH with
  | none => ((none, [], none), w)
  | some optSSH =>
    let rc : String → String → RemoteCallbacks := fun pubkeyFilename privkeyFilename =>
      ⟨fun url usernameFromURL allowedTypes w' =>
          CredentialsCallback E (w'.configs optSSH) pubkeyFilename privkeyFilename
            url usernameFromURL allowedTypes w',
        CertificateCheckCallback E⟩
    match (w.configs optSSH).PrivateKey with
    | none => ((some (rc "" ""), [], none), w)
    | some privateKey =>
      match WriteKeyTempFile E url privateKey w with
      | (.error err, w1) => ((none, [], some err), w1)
      | (.ok (privkeyFilename, privkeyFile), w1) =>
        let cfs : cleanupFuncs World := [File.Close E privkeyFile, osRemove E privkeyFile.Name]
        -- Derive public key from private key if empty.
        let derived : Except Error World :=
          match (w1.configs optSSH).PublicKey with
          | some _ => .ok w1
          | none =>
            match E.ParsePrivateKey privateKey with
            | .error err => .error err
            | .ok privKey =>
              let c := w1.configs optSSH
              let c := { c with PublicKey := some (E.MarshalAuthorizedKey privKey.PublicKey) }
              .ok { w1 with configs := Function.update w1.configs optSSH c }
        match derived with
        | .error err => ((none, cfs, some err), w1)
        | .ok w2 =>
          match WriteKeyTempFile E url ((w2.configs optSSH).PublicKey.getD []) w2 with
          | (.error err, w3) => ((none, cfs, some err), w3)
          | (.ok (pubkeyFilename, pubkeyFile), w3) =>
            let cfs := cfs ++ [File.Close E pubkeyFile, osRemove E pubkeyFile.Name]
            ((some (rc pubkeyFilename privkeyFilename), cfs, none), w3)

/-- The function `makeRemoteCallbacks`: its body, then the deferred function, which runs
the cleanup functions if the error result is not `nil` and ignores what `run` returns. -/
def makeRemoteCallbacks (E : Env) (url : String) (opt : RemoteOpts) (w : World) :
    (Option RemoteCallbacks × cleanupFuncs World × Option Error) × World :=
  match makeRemoteCallbacksBody E url opt w with
  | ((rc, cfs, some err), w1) => ((rc, cfs, some err), (cleanupFuncs.run cfs w1).2)
  | ((rc, cfs, none), w1) => ((rc, cfs, none), w1)

/-! ## The claims in the words of the specification -/

/-- The username precedence of the Credential Selector in the words of the specification:
the username embedded in the URL, else `options.User`, else the login name of the
operating user (empty when the lookup of the login name fails). -/
def usernamePrecedence (usernameFromURL optionsUser : String) (login : Except Error String) :
    String :=
  if usernameFromURL ≠ "" then usernameFromURL
  else if optionsUser ≠ "" then optionsUser
  else (login.toOption).getD ""

/-- The state after every function of the chain was invoked once, front to back, whatever
each of them returned. -/
def stateAfter {σ : Type} (f : cleanupFuncs σ) (s : σ) : σ :=
  f.foldl (fun s cf => (cf s).2) s

/-- The chain `f` with a probe on every function: the function at position `i` (counted
from `n`), when it is invoked, also appends `i` to the record of invocations kept next to
the state. -/
def traced {σ : Type} : Nat → cleanupFuncs σ → cleanupFuncs (σ × List Nat)
  | _, [] => []
  | n, cf :: rest => (fun s => ((cf s.1).1, ((cf s.1).2, s.2 ++ [n]))) :: traced (n + 1) rest

/-- A cleanup function that fails, and one that succeeds, on a state without content. -/
def failingAction : Action Unit := fun s => (some "close failed", s)

def succeedingAction : Action Unit := fun s => (none, s)

/-- The character map of `strings.Replace(s, " ", ":", -1)`. -/
def spaceToColon (c : Char) : Char := if c = ' ' then ':' else c

/-! ## A concrete environment for the examples -/

/-- A stand-in for `md5.Sum`: the first 16 bytes of the input, padded with zeros. -/
def padSum (bs : List Byte) : Hash16 := ⟨(bs ++ List.replicate 16 0).take 16, by simp⟩

/-- A stand-in for the name choice of a temporary file: the prefix followed by more
zeros than the longest existing name has characters. -/
def longerName (names : List String) (pre : String) : String :=
  pre ++ String.mk (List.replicate (names.foldr (fun n m => max n.length m) 0 + 1) '0')

/-- An environment with libgit2's values of the two constants, in which the given
operations fail. -/
def sampleEnv (stageFails : List String → String → List Byte → Bool)
    (closeFails removeFails : String → Bool) (parseFails : Bool) : Env where
  HostkeyMD5 := 1
  CredTypeSshKey := 2
  credRv := fun _ => 0
  md5Sum := padSum
  ParsePrivateKey := fun bs =>
    if parseFails then .error "ssh: no key found" else .ok ⟨⟨"ssh-rsa", bs.reverse⟩⟩
  MarshalAuthorizedKey := fun k => k.Marshal
  userCurrent := .ok "carol"
  tempName := longerName
  tempName_fresh := by
    intro names pre hmem
    have key : ∀ (l : List String) (n : String), n ∈ l →
        n.length ≤ l.foldr (fun n m => max n.length m) 0 := by
      intro l
      induction l with
      | nil => intro n hn; simp at hn
      | cons a t ih =>
        intro n hn
        rcases List.mem_cons.mp hn with h | h
        · subst h; simp
        · have := ih n h
          simp only [List.foldr_cons]
          omega
    have h := key names _ hmem
    rw [longerName, String.length_append] at h
    have h2 : (String.mk (List.replicate
        (names.foldr (fun n m => max n.length m) 0 + 1) '0')).length =
        names.foldr (fun n m => max n.length m) 0 + 1 := by
      show (List.replicate _ '0').length = _
      exact List.length_replicate _ _
    omega
  stageFails := stageFails
  closeFails := closeFails
  removeFails := removeFails

/-- The environment in which no operation fails. -/
def okEnv : Env := sampleEnv (fun _ _ _ => false) (fun _ => false) (fun _ => false) false

/-- The environment in which parsing the private key fails and closing a file fails. -/
def closeFailsEnv : Env := sampleEnv (fun _ _ _ => false) (fun _ => true) (fun _ => false) true

/-- The empty world: no file, no open handle, no log line, every config empty. -/
def emptyWorld : World := ⟨[], [], [], fun _ => ⟨"", none, none⟩⟩

/-- Two trusted keys and an unrelated one. -/
def keyK1 : PublicKey := ⟨"ssh-rsa", [1, 2, 3]⟩

def keyK2 : PublicKey := ⟨"ssh-rsa", [4, 5, 6]⟩

def keyK3 : PublicKey := ⟨"ssh-rsa", [7, 8, 9]⟩

/-- A registry that knows `example.org` with the two keys `keyK1` and `keyK2`. -/
def sampleKnownHosts : KnownHosts where
  Lookup := fun hostname => if hostname = "example.org" then ([keyK1, keyK2], true) else ([], false)

/-- A certificate with the MD5 fingerprint of the given key. -/
def certOf (k : PublicKey) : Certificate := ⟨⟨1, padSum k.Marshal⟩⟩

/-- SSH options with a private key only. -/
def sampleSSH : SSHConfig := ⟨"bob", some [10, 11, 12], none⟩

/-- The empty world in which address `0` holds `sampleSSH`. -/
def sampleWorld : World :=
  { emptyWorld with configs := Function.update emptyWorld.configs 0 sampleSSH }

/-! ## Lemmas on `md5String` -/

theorem ldigit_spaceToColon_inj :
    ∀ a b : Fin 16, spaceToColon (ldigit a.val) = spaceToColon (ldigit b.val) → a = b := by
  decide

theorem byte_nibbles (c : Byte) :
    c.val >>> 4 < 16 ∧ c.val &&& 0xF < 16 ∧ c.val = 16 * (c.val >>> 4) + (c.val &&& 0xF) := by
  have h1 : c.val >>> 4 = c.val / 16 := by
    rw [Nat.shiftRight_eq_div_pow]
  have h2 : c.val &&& 0xF = c.val % 16 := by
    have := Nat.and_pow_two_sub_one_eq_mod c.val 4
    simpa using this
  have := c.isLt
  omega

theorem byte_hex_inj (c d : Byte)
    (h1 : spaceToColon (ldigit (c.val >>> 4)) = spaceToColon (ldigit (d.val >>> 4)))
    (h2 : spaceToColon (ldigit (c.val &&& 0xF)) = spaceToColon (ldigit (d.val &&& 0xF))) :
    c = d := by
  obtain ⟨c1, c2, c3⟩ := byte_nibbles c
  obtain ⟨d1, d2, d3⟩ := byte_nibbles d
  have e1 := ldigit_spaceToColon_inj ⟨_, c1⟩ ⟨_, d1⟩ h1
  have e2 := ldigit_spaceToColon_inj ⟨_, c2⟩ ⟨_, d2⟩ h2
  simp only [Fin.mk.injEq] at e1 e2
  apply Fin.ext
  omega

theorem fmtSbxFrom_inj (l l' : List Byte) (i : Nat)
    (h : (fmtSbxFrom i l).map spaceToColon = (fmtSbxFrom i l').map spaceToColon) : l = l' := by
  induction l generalizing l' i with
  | nil =>
    cases l' with
    | nil => rfl
    | cons d t => simp [fmtSbxFrom] at h
  | cons c t ih =>
    cases l' with
    | nil => simp [fmtSbxFrom] at h
    | cons d t' =>
      simp only [fmtSbxFrom, List.map_append, List.map_cons, List.map_nil] at h
      have hlen : (List.map spaceToColon (if i > 0 then [' '] else []) ++
          [spaceToColon (ldigit (c.val >>> 4)), spaceToColon (ldigit (c.val &&& 0xF))]).length =
          (List.map spaceToColon (if i > 0 then [' '] else []) ++
          [spaceToColon (ldigit (d.val >>> 4)), spaceToColon (ldigit (d.val &&& 0xF))]).length := by
        simp
      obtain ⟨h1, h2⟩ := List.append_inj h hlen
      have h3 := List.append_cancel_left h1
      simp only [List.cons.injEq, and_true] at h3
      rw [byte_hex_inj c d h3.1 h3.2, ih t' (i + 1) h2]

theorem md5String_inj (a b : Hash16) (h : md5String a = md5String b) : a = b := by
  apply Subtype.ext
  apply fmtSbxFrom_inj a.val b.val 0
  exact congrArg String.data h

/-! ## The host verifier -/

theorem knownFingerprintLoop_iff (E : Env) (h : Hash16) (keys : List PublicKey) :
    knownFingerprintLoop E (md5String h) keys = true ↔ ∃ k ∈ keys, E.md5Sum k.Marshal = h := by
  induction keys with
  | nil => simp [knownFingerprintLoop]
  | cons k t ih =>
    simp only [knownFingerprintLoop, List.mem_cons, exists_eq_or_imp]
    by_cases hk : md5String h = md5String (E.md5Sum k.Marshal)
    · simp [hk, (md5String_inj _ _ hk).symm]
    · have hne : ¬ E.md5Sum k.Marshal = h := fun e => hk (by rw [e])
      simp [hk, hne, ih]

theorem certificateCheck_some (E : Env) (kh : KnownHosts) (cert : Certificate) (valid : Bool)
    (hostname : String) (w : World) :
    (CertificateCheckCallback E ⟨false, kh⟩ (some cert) valid hostname w).1 =
      if cert.Hostkey.Kind &&& E.HostkeyMD5 ≠ 0 ∧ (kh.Lookup hostname).2 = true ∧
          ∃ k ∈ (kh.Lookup hostname).1, E.md5Sum k.Marshal = cert.Hostkey.HashMD5
      then 0 else -1 := by
  simp only [CertificateCheckCallback, Bool.false_eq_true, if_false]
  by_cases hk : cert.Hostkey.Kind &&& E.HostkeyMD5 > 0
  · have hk' : cert.Hostkey.Kind &&& E.HostkeyMD5 ≠ 0 := by omega
    cases hf : (kh.Lookup hostname).2 with
    | false => simp [hk, hf]
    | true =>
      by_cases hm : knownFingerprintLoop E (md5String cert.Hostkey.HashMD5)
          (kh.Lookup hostname).1 = true
      · have := (knownFingerprintLoop_iff E _ _).mp hm
        simp [hk, hk', hm, hf, this]
      · have hm' : ¬ ∃ k ∈ (kh.Lookup hostname).1, E.md5Sum k.Marshal = cert.Hostkey.HashMD5 :=
          fun e => hm ((knownFingerprintLoop_iff E _ _).mpr e)
        simp [hk, hm, hf, hm']
  · have hk' : cert.Hostkey.Kind &&& E.HostkeyMD5 = 0 := by omega
    simp [hk']

/-! ## The cleanup chain -/

theorem stateAfter_cons {σ : Type} (cf : Action σ) (rest : cleanupFuncs σ) (s : σ) :
    stateAfter (cf :: rest) s = stateAfter rest (cf s).2 := by
  simp [stateAfter]

/-- A prefix that succeeds on `cf :: rest` succeeds on `rest` from the state after `cf`. -/
theorem allOk_tail {σ : Type} (cf : Action σ) (rest : cleanupFuncs σ) (s : σ)
    (h : ∀ i (hi : i < (cf :: rest).length),
      (((cf :: rest)[i]) (stateAfter ((cf :: rest).take i) s)).1 = none) :
    ∀ i (hi : i < rest.length), ((rest[i]) (stateAfter (rest.take i) (cf s).2)).1 = none := by
  intro i hi
  have := h (i + 1) (by simpa using hi)
  simpa [stateAfter_cons] using this

theorem run_traced_all_ok {σ : Type} (f : cleanupFuncs σ) :
    ∀ (n : Nat) (s : σ) (tr : List Nat),
      (∀ i (hi : i < f.length), ((f[i]) (stateAfter (f.take i) s)).1 = none) →
      cleanupFuncs.run f s = (none, stateAfter f s) ∧
      cleanupFuncs.run (traced n f) (s, tr) =
        (none, (stateAfter f s, tr ++ List.range' n f.length)) := by
  induction f with
  | nil =>
    intro n s tr _
    simp [cleanupFuncs.run, traced, stateAfter]
  | cons cf rest ih =>
    intro n s tr h
    have h0 : (cf s).1 = none := by
      have := h 0 (by simp)
      simpa [stateAfter] using this
    obtain ⟨e1, e2⟩ := ih (n + 1) (cf s).2 (tr ++ [n]) (allOk_tail cf rest s h)
    rcases hcf : cf s with ⟨r, s1⟩
    rw [hcf] at h0 e1 e2
    simp only at h0 e1 e2
    subst h0
    constructor
    · simp [cleanupFuncs.run, hcf, e1, stateAfter_cons]
    · simp [cleanupFuncs.run, traced, hcf, e2, stateAfter_cons, List.range'_succ]

theorem run_traced_first_error {σ : Type} (f₁ : cleanupFuncs σ) (cf : Action σ)
    (f₂ : cleanupFuncs σ) (err : Error) :
    ∀ (n : Nat) (s : σ) (tr : List Nat),
      (∀ i (hi : i < f₁.length), ((f₁[i]) (stateAfter (f₁.take i) s)).1 = none) →
      (cf (stateAfter f₁ s)).1 = some err →
      cleanupFuncs.run (f₁ ++ cf :: f₂) s = (some err, (cf (stateAfter f₁ s)).2) ∧
      cleanupFuncs.run (traced n (f₁ ++ cf :: f₂)) (s, tr) =
        (some err, ((cf (stateAfter f₁ s)).2, tr ++ List.range' n (f₁.length + 1))) := by
  induction f₁ with
  | nil =>
    intro n s tr _ hcf
    rcases hc : cf s with ⟨r, s1⟩
    simp only [stateAfter, List.foldl_nil, hc] at hcf
    subst hcf
    simp [cleanupFuncs.run, traced, stateAfter, hc]
  | cons c rest ih =>
    intro n s tr h hcf
    have h0 : (c s).1 = none := by
      have := h 0 (by simp)
      simpa [stateAfter] using this
    rw [stateAfter_cons] at hcf
    obtain ⟨e1, e2⟩ := ih (n + 1) (c s).2 (tr ++ [n]) (allOk_tail c rest s h) hcf
    rcases hc : c s with ⟨r, s1⟩
    rw [hc] at h0 e1 e2
    simp only at h0 e1 e2
    subst h0
    constructor
    · simp [cleanupFuncs.run, hc, e1, stateAfter_cons]
    · simp [cleanupFuncs.run, traced, hc, e2, stateAfter_cons, List.range'_succ]

/-! ## Staging and cleanup -/

/-- Writing into a config the public key it already holds changes nothing. -/
theorem update_explicit (configs : Ptr → SSHConfig) (p : Ptr) (publicKey : List Byte)
    (h : (configs p).PublicKey = some publicKey) :
    Function.update configs p { configs p with PublicKey := some publicKey } = configs := by
  have e : ({ configs p with PublicKey := some publicKey } : SSHConfig) = configs p := by
    rcases hc : configs p with ⟨u, sk, pk⟩
    rw [hc] at h
    simp only at h
    subst h
    rfl
  rw [e, Function.update_eq_self]

theorem makeRemoteCallbacks_first_stage_error (E : Env) (url : String) (p : Ptr)
    (privateKey : List Byte) (w : World)
    (hpriv : (w.configs p).PrivateKey = some privateKey)
    (hstage : E.stageFails w.names url privateKey = true) :
    makeRemoteCallbacks E url ⟨some p⟩ w =
      ((none, [], some "cannot write key file"), w) := by
  simp [makeRemoteCallbacks, makeRemoteCallbacksBody, WriteKeyTempFile, hpriv, hstage,
    cleanupFuncs.run]

/-- What `makeRemoteCallbacks` returns when the private key is staged and the derivation
of the public key fails. -/
theorem makeRemoteCallbacks_derive_error (E : Env) (url : String) (p : Ptr)
    (privateKey : List Byte) (w : World) (err : Error)
    (hpriv : (w.configs p).PrivateKey = some privateKey)
    (hstage : E.stageFails w.names url privateKey = false)
    (hpub : (w.configs p).PublicKey = none)
    (hparse : E.ParsePrivateKey privateKey = .error err) :
    makeRemoteCallbacks E url ⟨some p⟩ w =
      ((none, [File.Close E ⟨E.tempName w.names url⟩, osRemove E (E.tempName w.names url)],
          some err),
        (cleanupFuncs.run
          [File.Close E ⟨E.tempName w.names url⟩, osRemove E (E.tempName w.names url)]
          ⟨w.files ++ [(E.tempName w.names url, privateKey)],
            w.opened ++ [E.tempName w.names url], w.log, w.configs⟩).2) := by
  simp [makeRemoteCallbacks, makeRemoteCallbacksBody, WriteKeyTempFile, hpriv, hstage, hpub,
    hparse]

/-- What `makeRemoteCallbacks` returns when the private key is staged and staging the
explicit or derived public key fails. -/
theorem makeRemoteCallbacks_stage_error (E : Env) (url : String) (p : Ptr)
    (privateKey publicKey : List Byte) (w : World)
    (hpriv : (w.configs p).PrivateKey = some privateKey)
    (hstage : E.stageFails w.names url privateKey = false)
    (hpk : (w.configs p).PublicKey = some publicKey ∨
      ((w.configs p).PublicKey = none ∧ ∃ privKey, E.ParsePrivateKey privateKey = .ok privKey ∧
        publicKey = E.MarshalAuthorizedKey privKey.PublicKey))
    (hstage2 : E.stageFails (w.names ++ [E.tempName w.names url]) url publicKey = true) :
    makeRemoteCallbacks E url ⟨some p⟩ w =
      ((none, [File.Close E ⟨E.tempName w.names url⟩, osRemove E (E.tempName w.names url)],
          some "cannot write key file"),
        (cleanupFuncs.run
          [File.Close E ⟨E.tempName w.names url⟩, osRemove E (E.tempName w.names url)]
          ⟨w.files ++ [(E.tempName w.names url, privateKey)],
            w.opened ++ [E.tempName w.names url], w.log,
            Function.update w.configs p
              { w.configs p with PublicKey := some publicKey }⟩).2) := by
  simp only [World.names] at hstage hstage2
  rcases hpk with hex | ⟨hnone, privKey, hparse, rfl⟩
  · rw [update_explicit w.configs p publicKey hex]
    simp [makeRemoteCallbacks, makeRemoteCallbacksBody, WriteKeyTempFile, hpriv, hstage, hex,
      World.names, hstage2]
  · simp [makeRemoteCallbacks, makeRemoteCallbacksBody, WriteKeyTempFile, hpriv, hstage, hnone,
      hparse, World.names, hstage2]

/-- What `makeRemoteCallbacks` returns when both keys are staged. -/
theorem makeRemoteCallbacks_ok (E : Env) (url : String) (p : Ptr)
    (privateKey publicKey : List Byte) (w : World)
    (hpriv : (w.configs p).PrivateKey = some privateKey)
    (hstage : E.stageFails w.names url privateKey = false)
    (hpk : (w.configs p).PublicKey = some publicKey ∨
      ((w.configs p).PublicKey = none ∧ ∃ privKey, E.ParsePrivateKey privateKey = .ok privKey ∧
        publicKey = E.MarshalAuthorizedKey privKey.PublicKey))
    (hstage2 : E.stageFails (w.names ++ [E.tempName w.names url]) url publicKey = false) :
    makeRemoteCallbacks E url ⟨some p⟩ w =
      ((some ⟨fun url' usernameFromURL allowedTypes w' =>
            CredentialsCallback E (w'.configs p)
              (E.tempName (w.names ++ [E.tempName w.names url]) url) (E.tempName w.names url)
              url' usernameFromURL allowedTypes w',
          CertificateCheckCallback E⟩,
        [File.Close E ⟨E.tempName w.names url⟩, osRemove E (E.tempName w.names url),
          File.Close E ⟨E.tempName (w.names ++ [E.tempName w.names url]) url⟩,
          osRemove E (E.tempName (w.names ++ [E.tempName w.names url]) url)],
        none),
        ⟨w.files ++ [(E.tempName w.names url, privateKey),
            (E.tempName (w.names ++ [E.tempName w.names url]) url, publicKey)],
          w.opened ++ [E.tempName w.names url,
            E.tempName (w.names ++ [E.tempName w.names url]) url],
          w.log,
          Function.update w.configs p { w.configs p with PublicKey := some publicKey }⟩) := by
  simp only [World.names] at hstage hstage2
  rcases hpk with hex | ⟨hnone, privKey, hparse, rfl⟩
  · rw [update_explicit w.configs p publicKey hex]
    simp [makeRemoteCallbacks, makeRemoteCallbacksBody, WriteKeyTempFile, hpriv, hstage, hex,
      World.names, hstage2]
  · simp [makeRemoteCallbacks, makeRemoteCallbacksBody, WriteKeyTempFile, hpriv, hstage, hnone,
      hparse, World.names, hstage2]

/-- A successful `makeRemoteCallbacks` with a private key staged both keys. -/
theorem makeRemoteCallbacks_success_inv (E : Env) (url : String) (p : Ptr)
    (privateKey : List Byte) (w : World)
    (hpriv : (w.configs p).PrivateKey = some privateKey)
    (herr : (makeRemoteCallbacks E url ⟨some p⟩ w).1.2.2 = none) :
    E.stageFails w.names url privateKey = false ∧
    ∃ publicKey,
      ((w.configs p).PublicKey = some publicKey ∨
        ((w.configs p).PublicKey = none ∧ ∃ privKey,
          E.ParsePrivateKey privateKey = .ok privKey ∧
          publicKey = E.MarshalAuthorizedKey privKey.PublicKey)) ∧
      E.stageFails (w.names ++ [E.tempName w.names url]) url publicKey = false := by
  cases hs : E.stageFails w.names url privateKey with
  | true =>
    rw [makeRemoteCallbacks_first_stage_error E url p privateKey w hpriv hs] at herr
    simp at herr
  | false =>
    refine ⟨rfl, ?_⟩
    have key : ∀ publicKey,
        ((w.configs p).PublicKey = some publicKey ∨
          ((w.configs p).PublicKey = none ∧ ∃ privKey,
            E.ParsePrivateKey privateKey = .ok privKey ∧
            publicKey = E.MarshalAuthorizedKey privKey.PublicKey)) →
        E.stageFails (w.names ++ [E.tempName w.names url]) url publicKey = false := by
      intro publicKey hpk
      cases hs2 : E.stageFails (w.names ++ [E.tempName w.names url]) url publicKey with
      | false => rfl
      | true =>
        rw [makeRemoteCallbacks_stage_error E url p privateKey publicKey w hpriv hs hpk hs2]
          at herr
        simp at herr
    cases hpub : (w.configs p).PublicKey with
    | some publicKey => exact ⟨publicKey, Or.inl rfl, key publicKey (Or.inl hpub)⟩
    | none =>
      cases hparse : E.ParsePrivateKey privateKey with
      | error err =>
        rw [makeRemoteCallbacks_derive_error E url p privateKey w err hpriv hs hpub hparse]
          at herr
        simp at herr
      | ok privKey =>
        exact ⟨_, Or.inr ⟨rfl, privKey, rfl, rfl⟩, key _ (Or.inr ⟨hpub, privKey, hparse, rfl⟩)⟩

/-- Closing and removing a file that was just staged, when neither operation fails. -/
theorem run_close_remove (E : Env) (files : List (String × List Byte)) (opened : List String)
    (log : List LogEntry) (configs : Ptr → SSHConfig) (name : String) (d : List Byte)
    (hfresh : name ∉ files.map Prod.fst)
    (hclose : E.closeFails name = false) (hremove : E.removeFails name = false) :
    cleanupFuncs.run [File.Close E ⟨name⟩, osRemove E name]
      ⟨files ++ [(name, d)], opened ++ [name], log, configs⟩ =
      (none, ⟨files, (opened ++ [name]).erase name, log, configs⟩) := by
  simp [cleanupFuncs.run, File.Close, osRemove, hclose, hremove, World.names]
  intro a b hab e
  exact hfresh (e ▸ List.mem_map_of_mem Prod.fst hab)

/-- Closing and removing a file that was just staged, when closing fails: the removal is
not attempted. -/
theorem run_close_fails (E : Env) (files : List (String × List Byte)) (opened : List String)
    (log : List LogEntry) (configs : Ptr → SSHConfig) (name : String) (d : List Byte)
    (hclose : E.closeFails name = true) :
    cleanupFuncs.run [File.Close E ⟨name⟩, osRemove E name]
      ⟨files ++ [(name, d)], opened ++ [name], log, configs⟩ =
      (some "close failed", ⟨files ++ [(name, d)], (opened ++ [name]).erase name, log, configs⟩) := by
  simp [cleanupFuncs.run, File.Close, hclose]

theorem close_names (E : Env) (f : File) (w : World) :
    (File.Close E f w).2.names = w.names := by
  simp only [File.Close, World.names]
  split <;> rfl

theorem remove_keeps_absent (E : Env) (name other : String) (w : World)
    (h : other ∉ w.names) : other ∉ (osRemove E name w).2.names := by
  simp only [osRemove]
  split
  · split
    · exact h
    · simp only [World.names, List.mem_map, not_exists, not_and] at h ⊢
      intro x hx
      exact h x (List.mem_filter.mp hx).1
  · exact h

theorem remove_ok_absent (E : Env) (name : String) (w : World)
    (h : (osRemove E name w).1 = none) : name ∉ (osRemove E name w).2.names := by
  simp only [osRemove] at h ⊢
  split
  · split
    · rename_i h1 h2
      simp [h1, h2] at h
    · simp only [World.names, List.mem_map, not_exists, not_and]
      intro x hx
      have := (List.mem_filter.mp hx).2
      simpa using this
  · rename_i h1
    simp [h1] at h

/-- Removing a file that exists, when the operating system reports no error. -/
theorem remove_present_ok (E : Env) (name : String) (w : World)
    (h : name ∈ w.names) (hremove : E.removeFails name = false) :
    (osRemove E name w).1 = none := by
  simp [osRemove, h, hremove]

theorem run_cons_ok {σ : Type} (cf : Action σ) (rest : cleanupFuncs σ) (s : σ)
    (h : (cleanupFuncs.run (cf :: rest) s).1 = none) :
    (cf s).1 = none ∧ cleanupFuncs.run (cf :: rest) s = cleanupFuncs.run rest (cf s).2 := by
  rcases hcf : cf s with ⟨r, s1⟩
  cases r with
  | some e => simp [cleanupFuncs.run, hcf] at h
  | none => simp [cleanupFuncs.run, hcf]

/-- When the chain of a successful build runs without an error, both files are gone. -/
theorem run_chain_ok_absent (E : Env) (p q : String) (w : World)
    (h : (cleanupFuncs.run
      [File.Close E ⟨p⟩, osRemove E p, File.Close E ⟨q⟩, osRemove E q] w).1 = none) :
    p ∉ (cleanupFuncs.run
      [File.Close E ⟨p⟩, osRemove E p, File.Close E ⟨q⟩, osRemove E q] w).2.names ∧
    q ∉ (cleanupFuncs.run
      [File.Close E ⟨p⟩, osRemove E p, File.Close E ⟨q⟩, osRemove E q] w).2.names := by
  obtain ⟨-, e1⟩ := run_cons_ok _ _ _ h
  rw [e1] at h ⊢
  obtain ⟨h2, e2⟩ := run_cons_ok _ _ _ h
  rw [e2] at h ⊢
  obtain ⟨-, e3⟩ := run_cons_ok _ _ _ h
  rw [e3] at h ⊢
  obtain ⟨h4, e4⟩ := run_cons_ok _ _ _ h
  rw [e4]
  simp only [cleanupFuncs.run]
  have hp := remove_ok_absent E p _ h2
  rw [← close_names E ⟨q⟩] at hp
  exact ⟨remove_keeps_absent E q p _ hp, remove_ok_absent E q _ h4⟩

/-- Running the chain of a successful build when no operation fails. -/
theorem run_chain_no_fault (E : Env) (p q : String) (a b : List Byte)
    (files : List (String × List Byte)) (opened : List String)
    (log : List LogEntry) (configs : Ptr → SSHConfig)
    (hp : p ∉ files.map Prod.fst) (hq : q ∉ files.map Prod.fst) (hpq : p ≠ q)
    (h1 : E.closeFails p = false) (h2 : E.removeFails p = false)
    (h3 : E.closeFails q = false) (h4 : E.removeFails q = false) :
    (cleanupFuncs.run [File.Close E ⟨p⟩, osRemove E p, File.Close E ⟨q⟩, osRemove E q]
      ⟨files ++ [(p, a), (q, b)], opened ++ [p, q], log, configs⟩).1 = none ∧
    (cleanupFuncs.run [File.Close E ⟨p⟩, osRemove E p, File.Close E ⟨q⟩, osRemove E q]
      ⟨files ++ [(p, a), (q, b)], opened ++ [p, q], log, configs⟩).2.files = files := by
  have hfp : ∀ x ∈ files, ¬ x.1 = p := fun x hx e => hp (e ▸ List.mem_map_of_mem Prod.fst hx)
  have hfq : ∀ x ∈ files, ¬ x.1 = q := fun x hx e => hq (e ▸ List.mem_map_of_mem Prod.fst hx)
  have hqp : ¬ q = p := fun e => hpq e.symm
  have hmem : q ∈ (opened ++ [p, q]).erase p :=
    (List.mem_erase_of_ne hqp).mpr (by simp)
  have hf1 : (files ++ [(p, a), (q, b)]).filter (fun x => x.1 ≠ p) = files ++ [(q, b)] := by
    rw [List.filter_append, List.filter_eq_self.mpr (by simpa using hfp)]
    simp [hqp]
  have hf2 : (files ++ [(q, b)]).filter (fun x => x.1 ≠ q) = files := by
    rw [List.filter_append, List.filter_eq_self.mpr (by simpa using hfq)]
    simp
  simp only [cleanupFuncs.run, File.Close, osRemove, World.names, h1, h2, h3, h4,
    List.mem_append, List.mem_cons, List.mem_singleton, true_or, or_true, if_true,
    Bool.false_eq_true, if_false, List.map_append, List.map_cons, List.map_nil, hf1, hf2, hmem,
    and_self]

/-! ## The credential selector -/

theorem credentials_key_iff_aux (E : Env) (optSSH : SSHConfig)
    (pubkeyFilename privkeyFilename url usernameFromURL : String) (allowedTypes : Nat)
    (w : World) :
    ((allowedTypes &&& E.CredTypeSshKey ≠ 0 ∧ optSSH.PrivateKey ≠ none) →
      (CredentialsCallback E optSSH pubkeyFilename privkeyFilename url usernameFromURL
        allowedTypes w).1.2 =
      Cred.sshKey (usernamePrecedence usernameFromURL optSSH.User E.userCurrent)
        pubkeyFilename privkeyFilename "") ∧
    (¬ (allowedTypes &&& E.CredTypeSshKey ≠ 0 ∧ optSSH.PrivateKey ≠ none) →
      CredentialsCallback E optSSH pubkeyFilename privkeyFilename url usernameFromURL
        allowedTypes w =
        ((E.credRv Cred.default, Cred.default),
          { w with log := w.log ++ [LogEntry.noAuthentication url] })) := by
  constructor
  · intro h
    simp only [CredentialsCallback, usernamePrecedence]
    rw [if_pos h]
    cases E.userCurrent <;> rfl
  · intro h
    simp only [CredentialsCallback]
    rw [if_neg h]

/-- C1: with `InsecureSkipCheckVerifySSH = false` and a certificate presented, the
certificate check returns `0` exactly when the MD5 bit of the host-key kind is set, the
lookup of the hostname reports found, and one of the returned keys `k` has
`md5.Sum(k.Marshal()) = cert.Hostkey.HashMD5`; in every other case it returns `-1`.
Two `md5String` renderings are equal exactly when the hashes are equal. A match on the
second of two registered keys accepts; a certificate matching neither rejects. -/
theorem certificateCheck_accepts_iff_trusted_match (E : Env) (kh : KnownHosts)
    (cert : Certificate) (valid : Bool) (hostname : String) (w : World) :
    ((CertificateCheckCallback E ⟨false, kh⟩ (some cert) valid hostname w).1 = 0 ↔
      (cert.Hostkey.Kind &&& E.HostkeyMD5 ≠ 0 ∧ (kh.Lookup hostname).2 = true ∧
        ∃ k ∈ (kh.Lookup hostname).1, E.md5Sum k.Marshal = cert.Hostkey.HashMD5)) ∧
    ((CertificateCheckCallback E ⟨false, kh⟩ (some cert) valid hostname w).1 = -1 ↔
      ¬ (cert.Hostkey.Kind &&& E.HostkeyMD5 ≠ 0 ∧ (kh.Lookup hostname).2 = true ∧
        ∃ k ∈ (kh.Lookup hostname).1, E.md5Sum k.Marshal = cert.Hostkey.HashMD5)) ∧
    (∀ a b : Hash16, md5String a = md5String b ↔ a = b) ∧
    (∀ K1 K2 : PublicKey, kh.Lookup hostname = ([K1, K2], true) →
      cert.Hostkey.Kind &&& E.HostkeyMD5 ≠ 0 →
      E.md5Sum K2.Marshal = cert.Hostkey.HashMD5 →
      (CertificateCheckCallback E ⟨false, kh⟩ (some cert) valid hostname w).1 = 0) ∧
    (∀ K1 K2 : PublicKey, kh.Lookup hostname = ([K1, K2], true) →
      E.md5Sum K1.Marshal ≠ cert.Hostkey.HashMD5 →
      E.md5Sum K2.Marshal ≠ cert.Hostkey.HashMD5 →
      (CertificateCheckCallback E ⟨false, kh⟩ (some cert) valid hostname w).1 = -1) := by
  have key := certificateCheck_some E kh cert valid hostname w
  refine ⟨?_, ?_, ?_, ?_, ?_⟩
  · rw [key]
    split <;> simp_all
  · rw [key]
    split <;> simp_all
  · intro a b
    exact ⟨md5String_inj a b, fun e => by rw [e]⟩
  · intro K1 K2 hl hk hm
    rw [key, if_pos]
    refine ⟨hk, by rw [hl], K2, ?_, hm⟩
    rw [hl]
    simp
  · intro K1 K2 hl h1 h2
    rw [key, if_neg]
    rintro ⟨-, -, k, hk, hm⟩
    rw [hl] at hk
    simp only [List.mem_cons, List.mem_singleton, List.not_mem_nil, or_false] at hk
    rcases hk with rfl | rfl
    · exact h1 hm
    · exact h2 hm

/-- C1, at a registry with two keys: the certificate of the second key is accepted,
the certificate of an unrelated key is rejected. -/
theorem certificateCheck_accepts_iff_trusted_match_witness :
    (CertificateCheckCallback okEnv ⟨false, sampleKnownHosts⟩ (some (certOf keyK2)) true
      "example.org" emptyWorld).1 = 0 ∧
    (CertificateCheckCallback okEnv ⟨false, sampleKnownHosts⟩ (some (certOf keyK3)) true
      "example.org" emptyWorld).1 = -1 :=
  ⟨(certificateCheck_accepts_iff_trusted_match okEnv sampleKnownHosts (certOf keyK2) true
      "example.org" emptyWorld).2.2.2.1 keyK1 keyK2 (by decide) (by decide) (by decide),
   (certificateCheck_accepts_iff_trusted_match okEnv sampleKnownHosts (certOf keyK3) true
      "example.org" emptyWorld).2.2.2.2 keyK1 keyK2 (by decide) (by decide) (by decide)⟩

/-- C2: the certificate check does not depend on the validity flag supplied by the
transport: for every certificate (also none), hostname, registry and toggle value the
call with `valid = true` and the call with `valid = false` return the same decision and
leave the same state. -/
theorem certificateCheck_ignores_valid (E : Env) (G : Globals) (cert : Option Certificate)
    (hostname : String) (w : World) :
    CertificateCheckCallback E G cert true hostname w =
      CertificateCheckCallback E G cert false hostname w := by
  rfl

/-- C3: with `InsecureSkipCheckVerifySSH = false` and no certificate presented, the
certificate check returns `-1` for every hostname, registry and validity flag. -/
theorem certificateCheck_nil_rejects (E : Env) (kh : KnownHosts) (valid : Bool)
    (hostname : String) (w : World) :
    (CertificateCheckCallback E ⟨false, kh⟩ none valid hostname w).1 = -1 := by
  simp [CertificateCheckCallback]

/-- C4: with `InsecureSkipCheckVerifySSH = true` the certificate check returns `0` for
every certificate (also none), hostname, registry and validity flag. -/
theorem certificateCheck_skip_accepts (E : Env) (kh : KnownHosts) (cert : Option Certificate)
    (valid : Bool) (hostname : String) (w : World) :
    (CertificateCheckCallback E ⟨true, kh⟩ cert valid hostname w).1 = 0 := by
  simp [CertificateCheckCallback]

/-- C7: the username of every key credential the credentials callback returns is the
username embedded in the URL if it is not empty, otherwise `opt.SSH.User` if it is not
empty, otherwise the login name of the operating user (empty when its lookup fails);
such a credential is returned whenever key authentication is allowed and a private key
was supplied; and the username does not depend on `allowedTypes`. -/
theorem credentials_username_precedence (E : Env) (optSSH : SSHConfig)
    (pubkeyFilename privkeyFilename url usernameFromURL : String) (allowedTypes : Nat)
    (w : World) :
    (∀ u pk sk pass,
      (CredentialsCallback E optSSH pubkeyFilename privkeyFilename url usernameFromURL
        allowedTypes w).1.2 = Cred.sshKey u pk sk pass →
      u = usernamePrecedence usernameFromURL optSSH.User E.userCurrent) ∧
    (allowedTypes &&& E.CredTypeSshKey ≠ 0 → optSSH.PrivateKey ≠ none →
      ∃ pk sk pass,
        (CredentialsCallback E optSSH pubkeyFilename privkeyFilename url usernameFromURL
          allowedTypes w).1.2 =
        Cred.sshKey (usernamePrecedence usernameFromURL optSSH.User E.userCurrent) pk sk pass) ∧
    (∀ allowedTypes' u u' pk pk' sk sk' pass pass',
      (CredentialsCallback E optSSH pubkeyFilename privkeyFilename url usernameFromURL
        allowedTypes w).1.2 = Cred.sshKey u pk sk pass →
      (CredentialsCallback E optSSH pubkeyFilename privkeyFilename url usernameFromURL
        allowedTypes' w).1.2 = Cred.sshKey u' pk' sk' pass' →
      u = u') ∧
    usernamePrecedence "alice" "bob" E.userCurrent = "alice" ∧
    usernamePrecedence "" "bob" E.userCurrent = "bob" := by
  have key : ∀ a u pk sk pass,
      (CredentialsCallback E optSSH pubkeyFilename privkeyFilename url usernameFromURL
        a w).1.2 = Cred.sshKey u pk sk pass →
      u = usernamePrecedence usernameFromURL optSSH.User E.userCurrent := by
    intro a u pk sk pass h
    simp only [CredentialsCallback, usernamePrecedence] at h ⊢
    split at h
    · simp only [Cred.sshKey.injEq] at h
      rw [← h.1]
      cases E.userCurrent <;> rfl
    · simp at h
  refine ⟨key allowedTypes, ?_, ?_, by simp [usernamePrecedence], by simp [usernamePrecedence]⟩
  · intro h1 h2
    refine ⟨pubkeyFilename, privkeyFilename, "", ?_⟩
    simp only [CredentialsCallback, usernamePrecedence]
    rw [if_pos ⟨h1, h2⟩]
    cases E.userCurrent <;> rfl
  · intro a u u' pk pk' sk sk' pass pass' h h'
    rw [key _ _ _ _ _ h, key _ _ _ _ _ h']

/-- C7, at the inputs of the specification: URL user `alice` with `options.User = bob`
yields `alice`; no URL user with `options.User = bob` yields `bob`. -/
theorem credentials_username_precedence_witness :
    (∃ pk sk pass, (CredentialsCallback okEnv sampleSSH "pub" "priv" "ssh://alice@host/repo"
      "alice" 2 emptyWorld).1.2 = Cred.sshKey "alice" pk sk pass) ∧
    (∃ pk sk pass, (CredentialsCallback okEnv sampleSSH "pub" "priv" "ssh://host/repo"
      "" 2 emptyWorld).1.2 = Cred.sshKey "bob" pk sk pass) :=
  ⟨(credentials_username_precedence okEnv sampleSSH "pub" "priv" "ssh://alice@host/repo"
      "alice" 2 emptyWorld).2.1 (by decide) (by decide),
   (credentials_username_precedence okEnv sampleSSH "pub" "priv" "ssh://host/repo"
      "" 2 emptyWorld).2.1 (by decide) (by decide)⟩

/-- C8: the credentials callback returns the key credential built from the chosen
username, the public-key file name, the private-key file name and the empty passphrase
exactly when `allowedTypes` has the SSH-key bit set and a private key was supplied; in
every other case it logs that no authentication is available for the URL and returns the
default credential, which is not a key credential. -/
theorem credentials_key_iff (E : Env) (optSSH : SSHConfig)
    (pubkeyFilename privkeyFilename url usernameFromURL : String) (allowedTypes : Nat)
    (w : World) :
    ((CredentialsCallback E optSSH pubkeyFilename privkeyFilename url usernameFromURL
        allowedTypes w).1.2 =
      Cred.sshKey (usernamePrecedence usernameFromURL optSSH.User E.userCurrent)
        pubkeyFilename privkeyFilename "" ↔
      (allowedTypes &&& E.CredTypeSshKey ≠ 0 ∧ optSSH.PrivateKey ≠ none)) ∧
    ((allowedTypes &&& E.CredTypeSshKey ≠ 0 ∧ optSSH.PrivateKey ≠ none) →
      (CredentialsCallback E optSSH pubkeyFilename privkeyFilename url usernameFromURL
        allowedTypes w).2 = w) ∧
    (¬ (allowedTypes &&& E.CredTypeSshKey ≠ 0 ∧ optSSH.PrivateKey ≠ none) →
      (CredentialsCallback E optSSH pubkeyFilename privkeyFilename url usernameFromURL
        allowedTypes w) =
        ((E.credRv Cred.default, Cred.default),
          { w with log := w.log ++ [LogEntry.noAuthentication url] }) ∧
      ∀ u pk sk pass,
        (CredentialsCallback E optSSH pubkeyFilename privkeyFilename url usernameFromURL
          allowedTypes w).1.2 ≠ Cred.sshKey u pk sk pass) := by
  by_cases h : allowedTypes &&& E.CredTypeSshKey ≠ 0 ∧ optSSH.PrivateKey ≠ none
  · refine ⟨⟨fun _ => h, fun _ => ?_⟩, fun _ => ?_, fun hn => absurd h hn⟩
    · simp only [CredentialsCallback, usernamePrecedence]
      rw [if_pos h]
      cases E.userCurrent <;> rfl
    · simp only [CredentialsCallback]
      rw [if_pos h]
  · have e : CredentialsCallback E optSSH pubkeyFilename privkeyFilename url usernameFromURL
        allowedTypes w = ((E.credRv Cred.default, Cred.default),
          { w with log := w.log ++ [LogEntry.noAuthentication url] }) := by
      simp only [CredentialsCallback]
      rw [if_neg h]
    refine ⟨⟨fun hc => ?_, fun hc => absurd hc h⟩, fun hc => absurd hc h, fun _ => ⟨e, ?_⟩⟩
    · rw [e] at hc
      simp at hc
    · intro u pk sk pass
      rw [e]
      simp

/-- C8, at two inputs: with the SSH-key bit and a private key the key credential is
returned; without the SSH-key bit the default credential is returned and the URL is logged. -/
theorem credentials_key_iff_witness :
    (CredentialsCallback okEnv sampleSSH "pub" "priv" "ssh://host/repo" "" 2 emptyWorld).2 =
      emptyWorld ∧
    (CredentialsCallback okEnv sampleSSH "pub" "priv" "ssh://host/repo" "" 1 emptyWorld).1.2 =
      Cred.default ∧
    (CredentialsCallback okEnv sampleSSH "pub" "priv" "ssh://host/repo" "" 1 emptyWorld).2.log =
      [LogEntry.noAuthentication "ssh://host/repo"] :=
  ⟨(credentials_key_iff okEnv sampleSSH "pub" "priv" "ssh://host/repo" "" 2 emptyWorld).2.1
      (by decide),
   congrArg (fun r => r.1.2)
     ((credentials_key_iff okEnv sampleSSH "pub" "priv" "ssh://host/repo" "" 1 emptyWorld).2.2
      (by decide)).1,
   congrArg (fun r => r.2.log)
     ((credentials_key_iff okEnv sampleSSH "pub" "priv" "ssh://host/repo" "" 1 emptyWorld).2.2
      (by decide)).1⟩

/-- C9: when the options carry no SSH configuration, `makeRemoteCallbacks` returns no
callbacks, an empty list of cleanup functions and no error, and leaves the transient
storage as it was. -/
theorem makeRemoteCallbacks_no_ssh (E : Env) (url : String) (w : World) :
    makeRemoteCallbacks E url ⟨none⟩ w = ((none, [], none), w) := by
  rfl

/-- When `makeRemoteCallbacks` staged the private key and then fails, and closing and
removing the staged private-key file both succeed, the transient storage is as it was
before the call. -/
theorem makeRemoteCallbacks_failure_cleans (E : Env) (url : String) (p : Ptr)
    (privateKey : List Byte) (w : World)
    (hpriv : (w.configs p).PrivateKey = some privateKey)
    (hstage : E.stageFails w.names url privateKey = false)
    (hfail : ((w.configs p).PublicKey = none ∧
        ∃ err, E.ParsePrivateKey privateKey = .error err) ∨
      ∃ publicKey,
        ((w.configs p).PublicKey = some publicKey ∨
          ((w.configs p).PublicKey = none ∧ ∃ privKey,
            E.ParsePrivateKey privateKey = .ok privKey ∧
            publicKey = E.MarshalAuthorizedKey privKey.PublicKey)) ∧
        E.stageFails (w.names ++ [E.tempName w.names url]) url publicKey = true)
    (hclose : E.closeFails (E.tempName w.names url) = false)
    (hremove : E.removeFails (E.tempName w.names url) = false) :
    (makeRemoteCallbacks E url ⟨some p⟩ w).1.2.2 ≠ none ∧
    (makeRemoteCallbacks E url ⟨some p⟩ w).2.files = w.files ∧
    E.tempName w.names url ∉ (makeRemoteCallbacks E url ⟨some p⟩ w).2.names := by
  have hfresh := E.tempName_fresh w.names url
  rcases hfail with ⟨hpub, err, hparse⟩ | ⟨publicKey, hpk, hs2⟩
  · rw [makeRemoteCallbacks_derive_error E url p privateKey w err hpriv hstage hpub hparse,
      run_close_remove E _ _ _ _ _ _ hfresh hclose hremove]
    exact ⟨by simp, rfl, hfresh⟩
  · rw [makeRemoteCallbacks_stage_error E url p privateKey publicKey w hpriv hstage hpk hs2,
      run_close_remove E _ _ _ _ _ _ hfresh hclose hremove]
    exact ⟨by simp, rfl, hfresh⟩

/-- C5, the behaviour of the code where the claim fails: when `makeRemoteCallbacks` staged
the private key and then fails, because the derivation of the public key fails or
because staging the public key fails, and closing the staged private-key file returns an
error, then the deferred `run` stops at the failed close: the error of the build is
returned while the staged private-key file, which did not exist before, is still in the
transient storage; the removal was not attempted although it would have succeeded. -/
theorem makeRemoteCallbacks_failed_close_leaks (E : Env) (url : String) (p : Ptr)
    (privateKey : List Byte) (w : World)
    (hpriv : (w.configs p).PrivateKey = some privateKey)
    (hstage : E.stageFails w.names url privateKey = false)
    (hfail : ((w.configs p).PublicKey = none ∧
        ∃ err, E.ParsePrivateKey privateKey = .error err) ∨
      ∃ publicKey,
        ((w.configs p).PublicKey = some publicKey ∨
          ((w.configs p).PublicKey = none ∧ ∃ privKey,
            E.ParsePrivateKey privateKey = .ok privKey ∧
            publicKey = E.MarshalAuthorizedKey privKey.PublicKey)) ∧
        E.stageFails (w.names ++ [E.tempName w.names url]) url publicKey = true)
    (hclose : E.closeFails (E.tempName w.names url) = true) :
    (makeRemoteCallbacks E url ⟨some p⟩ w).1.2.2 ≠ none ∧
    E.tempName w.names url ∉ w.names ∧
    (makeRemoteCallbacks E url ⟨some p⟩ w).2.files =
      w.files ++ [(E.tempName w.names url, privateKey)] ∧
    E.tempName w.names url ∈ (makeRemoteCallbacks E url ⟨some p⟩ w).2.names ∧
    (E.removeFails (E.tempName w.names url) = false →
      (osRemove E (E.tempName w.names url) (makeRemoteCallbacks E url ⟨some p⟩ w).2).1 = none ∧
      E.tempName w.names url ∉
        (osRemove E (E.tempName w.names url) (makeRemoteCallbacks E url ⟨some p⟩ w).2).2.names) := by
  have hfresh := E.tempName_fresh w.names url
  have hrem : ∀ w2 : World, E.tempName w.names url ∈ w2.names →
      E.removeFails (E.tempName w.names url) = false →
      (osRemove E (E.tempName w.names url) w2).1 = none ∧
      E.tempName w.names url ∉ (osRemove E (E.tempName w.names url) w2).2.names :=
    fun w2 hin hr =>
      ⟨remove_present_ok E _ w2 hin hr, remove_ok_absent E _ w2 (remove_present_ok E _ w2 hin hr)⟩
  rcases hfail with ⟨hpub, err, hparse⟩ | ⟨publicKey, hpk, hs2⟩
  · rw [makeRemoteCallbacks_derive_error E url p privateKey w err hpriv hstage hpub hparse,
      run_close_fails E _ _ _ _ _ _ hclose]
    have hin : E.tempName w.names url ∈ World.names
        ⟨w.files ++ [(E.tempName w.names url, privateKey)],
          (w.opened ++ [E.tempName w.names url]).erase (E.tempName w.names url), w.log,
          w.configs⟩ := by
      simp [World.names]
    exact ⟨by simp, hfresh, rfl, hin, hrem _ hin⟩
  · rw [makeRemoteCallbacks_stage_error E url p privateKey publicKey w hpriv hstage hpk hs2,
      run_close_fails E _ _ _ _ _ _ hclose]
    have hin : E.tempName w.names url ∈ World.names
        ⟨w.files ++ [(E.tempName w.names url, privateKey)],
          (w.opened ++ [E.tempName w.names url]).erase (E.tempName w.names url), w.log,
          Function.update w.configs p { w.configs p with PublicKey := some publicKey }⟩ := by
      simp [World.names]
    exact ⟨by simp, hfresh, rfl, hin, hrem _ hin⟩

/-- C5, at a build with a private key that does not parse, in an environment in which
closing a file fails and removing a file would succeed: the build returns its error, the
staged private-key file `u0` is still there, and removing it would have succeeded. -/
theorem makeRemoteCallbacks_failed_close_leaks_witness :
    (makeRemoteCallbacks closeFailsEnv "u" ⟨some 0⟩ sampleWorld).1.2.2 ≠ none ∧
    sampleWorld.files = [] ∧
    (makeRemoteCallbacks closeFailsEnv "u" ⟨some 0⟩ sampleWorld).2.files =
      [("u0", [10, 11, 12])] ∧
    (osRemove closeFailsEnv "u0"
      (makeRemoteCallbacks closeFailsEnv "u" ⟨some 0⟩ sampleWorld).2).1 = none ∧
    "u0" ∉ (osRemove closeFailsEnv "u0"
      (makeRemoteCallbacks closeFailsEnv "u" ⟨some 0⟩ sampleWorld).2).2.names := by
  obtain ⟨h1, -, h3, -, h5⟩ :=
    makeRemoteCallbacks_failed_close_leaks closeFailsEnv "u" 0 [10, 11, 12] sampleWorld
      (by decide) (by decide) (Or.inl ⟨by decide, "ssh: no key found", rfl⟩) (by decide)
  have hname : closeFailsEnv.tempName sampleWorld.names "u" = "u0" := by decide
  rw [hname] at h3 h5
  exact ⟨h1, rfl, h3, h5 (by decide)⟩

/-- C10: for every successful `makeRemoteCallbacks` with SSH options. If a private key was
supplied, two files with distinct new names are staged: first the private key, then the
public key, which is `opt.SSH.PublicKey` when that is set and otherwise the authorized-key
encoding of the public key of the parsed private key; this public key is then stored in
`opt.SSH.PublicKey`. The returned chain is close private, remove private, close public,
remove public. Every key credential the credentials callback returns later, in whatever
state, names these two files, and it returns one whenever key authentication is allowed
and `opt.SSH.PrivateKey` is then set. A run of the chain without error leaves both files
absent; such is the run when no close and no remove fails, and it restores the transient
storage. If no private key was supplied, nothing is staged, the state is unchanged and
the chain is empty. -/
theorem makeRemoteCallbacks_success (E : Env) (url : String) (p : Ptr) (w : World)
    (herr : (makeRemoteCallbacks E url ⟨some p⟩ w).1.2.2 = none) :
    (∀ privateKey, (w.configs p).PrivateKey = some privateKey →
      ∃ publicKey privkeyFilename pubkeyFilename rc,
        ((w.configs p).PublicKey = some publicKey ∨
          ((w.configs p).PublicKey = none ∧ ∃ privKey,
            E.ParsePrivateKey privateKey = .ok privKey ∧
            publicKey = E.MarshalAuthorizedKey privKey.PublicKey)) ∧
        privkeyFilename ∉ w.names ∧ pubkeyFilename ∉ w.names ∧
        privkeyFilename ≠ pubkeyFilename ∧
        (makeRemoteCallbacks E url ⟨some p⟩ w).2.files =
          w.files ++ [(privkeyFilename, privateKey), (pubkeyFilename, publicKey)] ∧
        (makeRemoteCallbacks E url ⟨some p⟩ w).2.configs =
          Function.update w.configs p { w.configs p with PublicKey := some publicKey } ∧
        (makeRemoteCallbacks E url ⟨some p⟩ w).1.2.1 =
          [File.Close E ⟨privkeyFilename⟩, osRemove E privkeyFilename,
            File.Close E ⟨pubkeyFilename⟩, osRemove E pubkeyFilename] ∧
        (makeRemoteCallbacks E url ⟨some p⟩ w).1.1 = some rc ∧
        (∀ url' usernameFromURL allowedTypes w', allowedTypes &&& E.CredTypeSshKey ≠ 0 →
          (w'.configs p).PrivateKey ≠ none →
          (rc.CredentialsCallback url' usernameFromURL allowedTypes w').1.2 =
            Cred.sshKey (usernamePrecedence usernameFromURL (w'.configs p).User E.userCurrent)
              pubkeyFilename privkeyFilename "") ∧
        (∀ url' usernameFromURL allowedTypes w' u pk sk pass,
          (rc.CredentialsCallback url' usernameFromURL allowedTypes w').1.2 =
            Cred.sshKey u pk sk pass → pk = pubkeyFilename ∧ sk = privkeyFilename) ∧
        ((cleanupFuncs.run (makeRemoteCallbacks E url ⟨some p⟩ w).1.2.1
            (makeRemoteCallbacks E url ⟨some p⟩ w).2).1 = none →
          privkeyFilename ∉ (cleanupFuncs.run (makeRemoteCallbacks E url ⟨some p⟩ w).1.2.1
            (makeRemoteCallbacks E url ⟨some p⟩ w).2).2.names ∧
          pubkeyFilename ∉ (cleanupFuncs.run (makeRemoteCallbacks E url ⟨some p⟩ w).1.2.1
            (makeRemoteCallbacks E url ⟨some p⟩ w).2).2.names) ∧
        (E.closeFails privkeyFilename = false → E.removeFails privkeyFilename = false →
          E.closeFails pubkeyFilename = false → E.removeFails pubkeyFilename = false →
          (cleanupFuncs.run (makeRemoteCallbacks E url ⟨some p⟩ w).1.2.1
            (makeRemoteCallbacks E url ⟨some p⟩ w).2).1 = none ∧
          (cleanupFuncs.run (makeRemoteCallbacks E url ⟨some p⟩ w).1.2.1
            (makeRemoteCallbacks E url ⟨some p⟩ w).2).2.files = w.files)) ∧
    ((w.configs p).PrivateKey = none →
      (makeRemoteCallbacks E url ⟨some p⟩ w).2 = w ∧
      (makeRemoteCallbacks E url ⟨some p⟩ w).1.2.1 = [] ∧
      (makeRemoteCallbacks E url ⟨some p⟩ w).1.1.isSome = true) := by
  constructor
  · intro privateKey hpriv
    obtain ⟨hs, publicKey, hpk, hs2⟩ :=
      makeRemoteCallbacks_success_inv E url p privateKey w hpriv herr
    have hp := E.tempName_fresh w.names url
    have hq := E.tempName_fresh (w.names ++ [E.tempName w.names url]) url
    have hq1 : E.tempName (w.names ++ [E.tempName w.names url]) url ∉ w.names :=
      fun h => hq (List.mem_append_left _ h)
    have hpq : E.tempName w.names url ≠ E.tempName (w.names ++ [E.tempName w.names url]) url :=
      fun h => hq (by rw [← h]; simp)
    rw [makeRemoteCallbacks_ok E url p privateKey publicKey w hpriv hs hpk hs2]
    refine ⟨publicKey, _, _, _, hpk, hp, hq1, hpq, rfl, rfl, rfl, rfl, ?_, ?_, ?_, ?_⟩
    · intro url' usernameFromURL allowedTypes w' ha hk
      exact (credentials_key_iff_aux E (w'.configs p)
        (E.tempName (w.names ++ [E.tempName w.names url]) url) (E.tempName w.names url)
        url' usernameFromURL allowedTypes w').1 ⟨ha, hk⟩
    · intro url' usernameFromURL allowedTypes w' u pk sk pass h
      simp only [CredentialsCallback] at h
      split at h
      · simp only [Cred.sshKey.injEq] at h
        exact ⟨h.2.1.symm, h.2.2.1.symm⟩
      · simp at h
    · exact run_chain_ok_absent E _ _ _
    · intro h1 h2 h3 h4
      exact run_chain_no_fault E _ _ privateKey publicKey w.files w.opened w.log _ hp hq1 hpq
        h1 h2 h3 h4
  · intro hnone
    simp [makeRemoteCallbacks, makeRemoteCallbacksBody, hnone]

/-- C10, at a build with a private key only: two files with distinct names are staged,
the private key and the public key derived from it, which is stored in the options. -/
theorem makeRemoteCallbacks_success_witness :
    (makeRemoteCallbacks okEnv "u" ⟨some 0⟩ sampleWorld).1.2.2 = none ∧
    ∃ privkeyFilename pubkeyFilename, privkeyFilename ≠ pubkeyFilename ∧
      (makeRemoteCallbacks okEnv "u" ⟨some 0⟩ sampleWorld).2.files =
        sampleWorld.files ++ [(privkeyFilename, [10, 11, 12]), (pubkeyFilename, [12, 11, 10])] ∧
      ((makeRemoteCallbacks okEnv "u" ⟨some 0⟩ sampleWorld).2.configs 0).PublicKey =
        some [12, 11, 10] := by
  refine ⟨by decide, ?_⟩
  obtain ⟨publicKey, q1, q2, -, hpk, -, -, hpq, hfiles, hconf, -⟩ :=
    (makeRemoteCallbacks_success okEnv "u" 0 sampleWorld (by decide)).1 [10, 11, 12]
      (by decide)
  have hpub : publicKey = [12, 11, 10] := by
    rcases hpk with h | ⟨-, privKey, hparse, rfl⟩
    · have hn : (sampleWorld.configs 0).PublicKey = none := by decide
      rw [hn] at h
      cases h
    · have : privKey = ⟨⟨"ssh-rsa", [12, 11, 10]⟩⟩ := by
        have h2 : okEnv.ParsePrivateKey [10, 11, 12] = .ok ⟨⟨"ssh-rsa", [12, 11, 10]⟩⟩ := rfl
        rw [h2] at hparse
        exact (Except.ok.inj hparse).symm
      rw [this]
      rfl
  subst hpub
  refine ⟨q1, q2, hpq, hfiles, ?_⟩
  rw [hconf]
  simp

/-- C6, as the code has it: `run` invokes the cleanup functions front to back, each at
most once, and stops at the first one that returns an error: when the functions of `f₁`
return no error and `cf`, invoked after them, returns the error `err`, then `run` on
`f₁ ++ cf :: f₂` returns `err`, leaves the state that `cf` left, and has invoked exactly
the positions `0, …, |f₁|`, so no function of `f₂`. When no function of `f` returns an
error, `run` returns no error and has invoked every function exactly once, in order. -/
theorem run_stops_at_first_error {σ : Type} :
    (∀ (f : cleanupFuncs σ) (s : σ),
      (∀ i (hi : i < f.length), ((f[i]) (stateAfter (f.take i) s)).1 = none) →
      cleanupFuncs.run f s = (none, stateAfter f s) ∧
      (cleanupFuncs.run (traced 0 f) (s, [])).2.2 = List.range f.length) ∧
    (∀ (f₁ : cleanupFuncs σ) (cf : Action σ) (f₂ : cleanupFuncs σ) (s : σ) (err : Error),
      (∀ i (hi : i < f₁.length), ((f₁[i]) (stateAfter (f₁.take i) s)).1 = none) →
      (cf (stateAfter f₁ s)).1 = some err →
      cleanupFuncs.run (f₁ ++ cf :: f₂) s = (some err, (cf (stateAfter f₁ s)).2) ∧
      (cleanupFuncs.run (traced 0 (f₁ ++ cf :: f₂)) (s, [])).1 = some err ∧
      (cleanupFuncs.run (traced 0 (f₁ ++ cf :: f₂)) (s, [])).2.2 =
        List.range (f₁.length + 1)) := by
  constructor
  · intro f s h
    obtain ⟨e1, e2⟩ := run_traced_all_ok f 0 s [] h
    refine ⟨e1, ?_⟩
    rw [e2]
    simp [List.range_eq_range']
  · intro f₁ cf f₂ s err h hcf
    obtain ⟨e1, e2⟩ := run_traced_first_error f₁ cf f₂ err 0 s [] h hcf
    refine ⟨e1, ?_, ?_⟩
    · rw [e2]
    · rw [e2]
      simp [List.range_eq_range']

/-- C6, at two chains: after a function that succeeds, a function that fails stops the
run, its error is returned and the third function is not invoked; a chain of two
functions that succeed is run to its end. -/
theorem run_stops_at_first_error_witness :
    (cleanupFuncs.run [succeedingAction, failingAction, succeedingAction] () =
        (some "close failed", ()) ∧
      (cleanupFuncs.run (traced 0 [succeedingAction, failingAction, succeedingAction])
        ((), [])).1 = some "close failed" ∧
      (cleanupFuncs.run (traced 0 [succeedingAction, failingAction, succeedingAction])
        ((), [])).2.2 = [0, 1]) ∧
    (cleanupFuncs.run [succeedingAction, succeedingAction] () = (none, ()) ∧
      (cleanupFuncs.run (traced 0 [succeedingAction, succeedingAction]) ((), [])).2.2 =
        [0, 1]) :=
  ⟨run_stops_at_first_error.2 [succeedingAction] failingAction [succeedingAction] ()
      "close failed" (by decide) (by decide),
   run_stops_at_first_error.1 [succeedingAction, succeedingAction] () (by decide)⟩

/-- C6, as stated, fails: in a chain of two functions whose first returns an error, the
second function is not invoked. -/
theorem run_skips_after_error :
    (cleanupFuncs.run (traced 0 [failingAction, succeedingAction]) ((), [])).2.2 = [0] ∧
    (cleanupFuncs.run (traced 0 [failingAction, succeedingAction]) ((), [])).2.2 ≠
      List.range [failingAction, succeedingAction].length := by
  decide

end GoVcs
